import Mathlib

/-!
# Dashboard Variable & Time-Macro Resolution Engine — verification

Shallow embedding of the query-resolution core of `src/app.py`
(`parse_grafana_time_range` and the substitution loop of `view_dashboard`,
lines 163-244 and 519-594).

Modelling conventions:
* Query text is `List Char` (Python `str` at the granularity the engine uses).
* Instants are `Int` seconds since the Unix epoch (the engine formats with
  `%Y-%m-%d %H:%M:%S`, i.e. second granularity; `datetime.utcnow()` becomes an
  explicit `now : Int` parameter).
* `re` scanning is embedded deterministically: every pattern used by the code
  (`\$__timeFilter\((\w+)\)`, `\$\{(\w+)\}`, `(\w+)\s+IN\s+\(\s*PH\s*\)`,
  `now-(\d+)([hdwmMy])(/([hdwmMy]))?`) alternates literals with greedy
  character-class runs whose following token is outside the class, so greedy
  matching never backtracks and first-position scanning gives the leftmost
  match.  `\w`/`\s`/`\d` are modelled at ASCII granularity.
* `logger.warning` calls inside the planning loop are modelled as a diagnostic
  list threaded through the state.
* Fallible Python operations (`datetime.fromisoformat` raising `ValueError`)
  return `Option`; numeric timestamp arithmetic is exact integer arithmetic.
-/

namespace GrafanaCost

/-! ## Basic string machinery (Python `str` primitives on `List Char`) -/

/-- `dropPref p s = some r` iff `s = p ++ r` (prefix test returning the rest). -/
def dropPref : List Char → List Char → Option (List Char)
  | [], s => some s
  | _ :: _, [] => none
  | a :: as, b :: bs => if a = b then dropPref as bs else none

/-- Python `s.startswith(p)`. -/
def leadsWith (p s : List Char) : Bool :=
  (dropPref p s).isSome

/-- Python `p in s` (substring containment). -/
def containsSub (p : List Char) : List Char → Bool
  | [] => leadsWith p []
  | c :: rest => leadsWith p (c :: rest) || containsSub p rest

/-- Fuel-driven worker for `replaceAll`; fuel `s.length` suffices because every
step consumes at least one character of the subject when `old ≠ []`. -/
def replaceAllF (old new : List Char) : Nat → List Char → List Char
  | _, [] => []
  | 0, s => s
  | Nat.succ f, c :: cs =>
    if old ≠ [] then
      match dropPref old (c :: cs) with
      | some r => new ++ replaceAllF old new f r
      | none => c :: replaceAllF old new f cs
    else c :: replaceAllF old new f cs

/-- Python `s.replace(old, new)`: replaces every non-overlapping occurrence,
scanning left to right.  (The engine never calls it with `old = ""`.) -/
def replaceAll (old new s : List Char) : List Char :=
  replaceAllF old new s.length s

/-! ## Character classes (ASCII granularity of Python `\w`, `\s`, `\d`) -/

/-- Python `\w` (ASCII): letters, digits, underscore. -/
def isWordChar (c : Char) : Bool :=
  c.isAlphanum || c = ('_')

/-- Python `\s` (ASCII): space, tab, newline, carriage return, form feed,
vertical tab. -/
def isSpaceChar (c : Char) : Bool :=
  c = (' ') || c = ('\t') || c = ('\n') || c = ('\r') ||
  c = (Char.ofNat 11) || c = (Char.ofNat 12)

/-! ## Decimal digits (`int(...)` on a digit string, and decimal rendering) -/

/-- Numeric value of an ASCII digit character. -/
def charVal (c : Char) : Nat := c.toNat - 48

/-- Python `int(ds)` for a string of ASCII digits. -/
def digitsVal (ds : List Char) : Nat :=
  ds.foldl (fun a c => 10 * a + charVal c) 0

/-- Fuel-driven little-endian base-10 digits (kernel-reducible; fuel `n`
suffices since `n / 10 < n` for `n ≥ 1`). -/
def natDigitsF : Nat → Nat → List Nat
  | _, 0 => []
  | 0, _ => []
  | f + 1, n => n % 10 :: natDigitsF f (n / 10)

/-- Little-endian base-10 digits of `n`. -/
def natDigits (n : Nat) : List Nat := natDigitsF n n

/-- Decimal rendering of a natural number (Python `str(n)` for `n ≥ 0`). -/
def natRepr (n : Nat) : List Char :=
  if n = 0 then "0".toList else ((natDigits n).reverse.map Nat.digitChar)

/-- Decimal rendering of an integer (Python `str(n)`). -/
def intRepr (n : Int) : List Char :=
  if n < 0 then ('-') :: natRepr n.natAbs else natRepr n.toNat

/-- Left-pad with zeros to width `w` (strftime zero padding). -/
def padZ (w : Nat) (ds : List Char) : List Char :=
  List.replicate (w - ds.length) ('0') ++ ds

/-! ## Proleptic Gregorian calendar (days ↔ civil date), floor-division form -/

/-- Civil date to days since 1970-01-01. -/
def daysFromCivil (y m d : Int) : Int :=
  let y' := y - (if m ≤ 2 then 1 else 0)
  let era := y'.fdiv 400
  let yoe := y' - era * 400
  let doy := ((153 * (m + (if 2 < m then -3 else 9)) + 2).fdiv 5) + d - 1
  let doe := yoe * 365 + yoe.fdiv 4 - yoe.fdiv 100 + doy
  era * 146097 + doe - 719468

/-- Days since 1970-01-01 to civil date `(year, month, day)`. -/
def civilFromDays (z0 : Int) : Int × Int × Int :=
  let z := z0 + 719468
  let era := z.fdiv 146097
  let doe := z - era * 146097
  let yoe := (doe - doe.fdiv 1460 + doe.fdiv 36524 - doe.fdiv 146096).fdiv 365
  let y := yoe + era * 400
  let doy := doe - (365 * yoe + yoe.fdiv 4 - yoe.fdiv 100)
  let mp := (5 * doy + 2).fdiv 153
  let d := doy - (153 * mp + 2).fdiv 5 + 1
  let m := mp + (if mp < 10 then 3 else -9)
  (y + (if m ≤ 2 then 1 else 0), m, d)

/-- Gregorian leap year. -/
def isLeap (y : Int) : Bool :=
  y.emod 4 = 0 && (y.emod 100 ≠ 0 || y.emod 400 = 0)

/-- Number of days in a month. -/
def daysInMonth (y m : Int) : Int :=
  if m = 2 then (if isLeap y then 29 else 28)
  else if m = 4 || m = 6 || m = 9 || m = 11 then 30
  else 31

/-- `dateutil` `dt - relativedelta(months=n)`: subtract calendar months,
clamping the day-of-month to the last valid day (time of day unchanged). -/
def subMonths (t : Int) (n : Nat) : Int :=
  let days := t.fdiv 86400
  let tod := t - 86400 * days
  let c := civilFromDays days
  let tot := c.1 * 12 + (c.2.1 - 1) - (n : Int)
  let y' := tot.fdiv 12
  let m' := tot.emod 12 + 1
  let d' := min c.2.2 (daysInMonth y' m')
  daysFromCivil y' m' d' * 86400 + tod

/-- `dateutil` `dt - relativedelta(years=n)`: subtract calendar years,
clamping the day-of-month (Feb 29 → Feb 28). -/
def subYears (t : Int) (n : Nat) : Int :=
  let days := t.fdiv 86400
  let tod := t - 86400 * days
  let c := civilFromDays days
  let y' := c.1 - (n : Int)
  let d' := min c.2.2 (daysInMonth y' c.2.1)
  daysFromCivil y' c.2.1 d' * 86400 + tod

/-- `dt.strftime('%Y-%m-%d %H:%M:%S')` at second granularity. -/
def fmtTs (t : Int) : List Char :=
  let days := t.fdiv 86400
  let tod := (t - 86400 * days).toNat
  let c := civilFromDays days
  padZ 4 (intRepr c.1) ++ "-".toList ++ padZ 2 (intRepr c.2.1) ++ "-".toList ++
  padZ 2 (intRepr c.2.2) ++ " ".toList ++
  padZ 2 (natRepr (tod / 3600)) ++ ":".toList ++
  padZ 2 (natRepr (tod % 3600 / 60)) ++ ":".toList ++ padZ 2 (natRepr (tod % 60))

/-! ## Time-spec parsing (`parse_grafana_time_range`, src/app.py lines 163-244) -/

/-- The regex unit class `[hdwmMy]` of `now-(\d+)([hdwmMy])(/([hdwmMy]))?`. -/
def unitChars : List Char := "hdwmMy".toList

/-- `re.match(r'now-(\d+)([hdwmMy])(/([hdwmMy]))?', s)` reduced to the two
capture groups the code reads.  The greedy `\d+` run must be non-empty and be
followed by a class character; the optional rounding group and any trailing
text are irrelevant (`re.match` does not anchor the end). -/
def relMatch (s : List Char) : Option (Nat × Char) :=
  match dropPref ("now-".toList) s with
  | none => none
  | some r =>
    let ds := r.takeWhile Char.isDigit
    if ds = [] then none
    else
      match r.dropWhile Char.isDigit with
      | u :: _ => if u ∈ unitChars then some (digitsVal ds, u) else none
      | [] => none

/-- The `delta` computed for a matched unit: `timedelta` for h/d/w (a fixed
number of seconds), `relativedelta` for M/y. -/
inductive RelDelta where
  | secs (n : Nat)
  | months (n : Nat)
  | years (n : Nat)
deriving DecidableEq

/-- The `if unit == ...` chain building `delta` (`None` when no branch fires,
e.g. for the lowercase unit `m` which the class admits but no branch handles). -/
def unitDelta (u : Char) (v : Nat) : Option RelDelta :=
  if u = ('h') then some (RelDelta.secs (v * 3600))
  else if u = ('d') then some (RelDelta.secs (v * 86400))
  else if u = ('w') then some (RelDelta.secs (v * 604800))
  else if u = ('M') then some (RelDelta.months v)
  else if u = ('y') then some (RelDelta.years v)
  else none

/-- Python truthiness of `delta` (`if delta:`): a zero `timedelta` or
`relativedelta` is falsy. -/
def deltaTruthy : RelDelta → Bool
  | .secs n => n != 0
  | .months n => n != 0
  | .years n => n != 0

/-- `now - delta`. -/
def applyDelta (now : Int) : RelDelta → Int
  | .secs n => now - (n : Int)
  | .months n => subMonths now n
  | .years n => subYears now n

/-- The body of the `time.startswith('now-')` branch, shared verbatim by the
'from' and 'to' sections (`who` is the word inside the error message). -/
def relResolve (now : Int) (s who : List Char) : Option Int × Option (List Char) :=
  match relMatch s with
  | some p =>
    match unitDelta p.2 p.1 with
    | some d =>
      if deltaTruthy d then (some (applyDelta now d), none)
      else (none, some ("Unsupported relative time unit: ".toList ++ [p.2]))
    | none => (none, some ("Unsupported relative time unit: ".toList ++ [p.2]))
  | none =>
    (none, some ("Could not parse relative '".toList ++ who ++ "' time: ".toList ++ s))

/-- Python `s.isdigit()` (ASCII granularity): non-empty and all digits. -/
def pyIsDigit (s : List Char) : Bool :=
  !s.isEmpty && s.all Char.isDigit

/-- Exactly `k` leading digits, returning their value and the rest. -/
def fixedDigits (k : Nat) (s : List Char) : Option (Nat × List Char) :=
  let ds := s.take k
  if ds.length = k ∧ ds.all Char.isDigit then some (digitsVal ds, s.drop k)
  else none

/-- Require a single specific leading character. -/
def expectChar (c : Char) : List Char → Option (List Char)
  | [] => none
  | b :: bs => if b = c then some bs else none

/-- `HH:MM` with optional `:SS` (the time part accepted by
`datetime.fromisoformat`, fractional seconds not modelled). -/
def isoTime (s : List Char) : Option (Nat × Nat × Nat × List Char) :=
  match fixedDigits 2 s with
  | none => none
  | some (hh, r1) =>
    match expectChar (':') r1 with
    | none => none
    | some r2 =>
      match fixedDigits 2 r2 with
      | none => none
      | some (mi, r3) =>
        match expectChar (':') r3 with
        | none => some (hh, mi, 0, r3)
        | some r4 =>
          match fixedDigits 2 r4 with
          | none => none
          | some (ss, r5) => some (hh, mi, ss, r5)

/-- Optional `±HH:MM` UTC-offset suffix.  The code formats the parsed datetime
with `strftime`, which prints the wall-clock fields unshifted, so a parsed
offset never changes the emitted text; we validate and discard it. -/
def isoOffset (s : List Char) : Option (List Char) :=
  match s with
  | [] => some []
  | c :: r1 =>
    if c = ('+') || c = ('-') then
      match fixedDigits 2 r1 with
      | none => none
      | some (_, r2) =>
        match expectChar (':') r2 with
        | none => none
        | some r3 =>
          match fixedDigits 2 r3 with
          | none => none
          | some (_, r4) => some r4
    else none

/-- Model of `datetime.fromisoformat` (the strict pre-3.11 grammar
`YYYY-MM-DD[<sep>HH:MM[:SS][±HH:MM]]`); `none` models the raised `ValueError`. -/
def fromisoformat (s : List Char) : Option Int :=
  match fixedDigits 4 s with
  | none => none
  | some (y, r1) =>
    match expectChar ('-') r1 with
    | none => none
    | some r2 =>
      match fixedDigits 2 r2 with
      | none => none
      | some (mo, r3) =>
        match expectChar ('-') r3 with
        | none => none
        | some r4 =>
          match fixedDigits 2 r4 with
          | none => none
          | some (d, r5) =>
            if 1 ≤ y ∧ y ≤ 9999 ∧ 1 ≤ mo ∧ mo ≤ 12 ∧ 1 ≤ d ∧
               (d : Int) ≤ daysInMonth (y : Int) (mo : Int) then
              match r5 with
              | [] => some (daysFromCivil (y : Int) (mo : Int) (d : Int) * 86400)
              | _ :: r6 =>
                match isoTime r6 with
                | none => none
                | some (hh, mi, ss, r7) =>
                  if hh < 24 ∧ mi < 60 ∧ ss < 60 then
                    match isoOffset r7 with
                    | some [] =>
                      some (daysFromCivil (y : Int) (mo : Int) (d : Int) * 86400 +
                            (hh : Int) * 3600 + (mi : Int) * 60 + (ss : Int))
                    | _ => none
                  else none
            else none

/-- The absolute branch: `isdigit` strings are Unix milliseconds
(`utcfromtimestamp(int(s)/1000.0)`, second granularity), anything else goes
through `fromisoformat` after `.replace('Z', '+00:00')`; a failure leaves the
bound absent with the "Could not parse absolute" diagnostic. -/
def absResolve (s who : List Char) : Option Int × Option (List Char) :=
  if pyIsDigit s then (some ((digitsVal s / 1000 : Nat) : Int), none)
  else
    match fromisoformat (replaceAll ("Z".toList) ("+00:00".toList) s) with
    | some t => (some t, none)
    | none =>
      (none, some ("Could not parse absolute '".toList ++ who ++ "' time: ".toList ++ s))

/-- The 'from' section (lines 173-203): `now-` prefix, then the literal
`now`, then the absolute fallback. -/
def parseFromSpec (now : Int) (tf : List Char) : Option Int × Option (List Char) :=
  if leadsWith ("now-".toList) tf then relResolve now tf ("from".toList)
  else if tf = "now".toList then (some now, none)
  else absResolve tf ("from".toList)

/-- The 'to' section (lines 205-233): literal `now` first, then the `now-`
prefix, then the absolute fallback. -/
def parseToSpec (now : Int) (tt : List Char) : Option Int × Option (List Char) :=
  if tt = "now".toList then (some now, none)
  else if leadsWith ("now-".toList) tt then relResolve now tt ("to".toList)
  else absResolve tt ("to".toList)

/-- Python `a or b` for an optional string `a` (an empty string is falsy). -/
def pyOrS (a : Option (List Char)) (b : List Char) : List Char :=
  match a with
  | some s => if s = [] then b else s
  | none => b

/-- Lines 235-244: the SQL condition built from the resolved bounds — one
clause per present bound joined by `" AND "`, or the `1=1` fallback with a
guaranteed diagnostic. -/
def buildCondition (dtf dtt : Option Int) (e : Option (List Char)) (col : List Char) :
    List Char × Option (List Char) :=
  let conds :=
    (match dtf with
     | some a => [col ++ " >= '".toList ++ fmtTs a ++ "'".toList]
     | none => []) ++
    (match dtt with
     | some b => [col ++ " <= '".toList ++ fmtTs b ++ "'".toList]
     | none => [])
  if conds ≠ [] then (List.intercalate (" AND ".toList) conds, e)
  else ("1=1".toList, some (pyOrS e ("Failed to parse time range, using 1=1".toList)))

/-- `parse_grafana_time_range(time_from, time_to, column_name)` with
`datetime.utcnow()` made an explicit parameter.  The 'to' section assigns its
diagnostic with `error_msg = error_msg or ...`, so a 'from' diagnostic wins. -/
def parse_grafana_time_range (now : Int) (time_from time_to col : List Char) :
    List Char × Option (List Char) :=
  let rf := parseFromSpec now time_from
  let rt := parseToSpec now time_to
  let e := match rt.2 with
    | none => rf.2
    | some m => some (pyOrS rf.2 m)
  buildCondition rf.1 rt.1 e col

/-! ## Macro scanning (the three regexes of the substitution loop) -/

/-- `\$__timeFilter\((\w+)\)` tried at the current position: the literal
`$__timeFilter(`, a non-empty greedy `\w+` run, a closing `)`.  Returns
(group 0, group 1). -/
def timeFilterAt (s : List Char) : Option (List Char × List Char) :=
  match dropPref ("$__timeFilter(".toList) s with
  | none => none
  | some r1 =>
    let w := r1.takeWhile isWordChar
    if w = [] then none
    else
      match dropPref (")".toList) (r1.dropWhile isWordChar) with
      | none => none
      | some _ => some ("$__timeFilter(".toList ++ w ++ ")".toList, w)

/-- `re.search(r"\$__timeFilter\((\w+)\)", s)`: leftmost match. -/
def searchTimeFilter : List Char → Option (List Char × List Char)
  | [] => none
  | c :: rest =>
    match timeFilterAt (c :: rest) with
    | some m => some m
    | none => searchTimeFilter rest

/-- `\$\{(\w+)\}` tried at the current position; returns group 1. -/
def varAt (s : List Char) : Option (List Char) :=
  match dropPref ("$\x7b".toList) s with
  | none => none
  | some r1 =>
    let w := r1.takeWhile isWordChar
    if w = [] then none
    else
      match dropPref ("\x7d".toList) (r1.dropWhile isWordChar) with
      | none => none
      | some _ => some w

/-- `re.findall(r"\$\{(\w+)\}", s)`: all matches, in order.  A match's
interior (`{`, word characters, `}`) contains no `$`, so no match can begin
strictly inside another; scanning every position therefore coincides with
`findall`'s non-overlapping scan. -/
def findVars : List Char → List (List Char)
  | [] => []
  | c :: rest =>
    match varAt (c :: rest) with
    | some w => w :: findVars rest
    | none => findVars rest

/-- `(\w+)\s+IN\s+\(\s*PH\s*\)` tried at the current position (`PH` is the
`re.escape`d placeholder, which begins with `$` and contains no whitespace,
so every greedy run is cut off by a character outside its class).  Returns
group 0, reconstructed exactly as matched. -/
def inCondAt (ph : List Char) (s : List Char) : Option (List Char) :=
  let w := s.takeWhile isWordChar
  if w = [] then none
  else
    let r1 := s.dropWhile isWordChar
    let s1 := r1.takeWhile isSpaceChar
    if s1 = [] then none
    else
      match dropPref ("IN".toList) (r1.dropWhile isSpaceChar) with
      | none => none
      | some r2 =>
        let s2 := r2.takeWhile isSpaceChar
        if s2 = [] then none
        else
          match dropPref ("(".toList) (r2.dropWhile isSpaceChar) with
          | none => none
          | some r3 =>
            let s3 := r3.takeWhile isSpaceChar
            match dropPref ph (r3.dropWhile isSpaceChar) with
            | none => none
            | some r4 =>
              let s4 := r4.takeWhile isSpaceChar
              match dropPref (")".toList) (r4.dropWhile isSpaceChar) with
              | none => none
              | some _ =>
                some (w ++ s1 ++ "IN".toList ++ s2 ++ "(".toList ++ s3 ++ ph ++
                      s4 ++ ")".toList)

/-- `re.search` of the IN-condition pattern: leftmost match's group 0. -/
def searchInCond (ph : List Char) : List Char → Option (List Char)
  | [] => none
  | c :: rest =>
    match inCondAt ph (c :: rest) with
    | some m => some m
    | none => searchInCond ph rest

/-! ## Variable values (dashboard templating `current.value`) -/

/-- A scalar templating value: a string or a non-string scalar (rendered via
`str(...)`; integers model the non-string case). -/
inductive Scalar where
  | s (v : List Char)
  | i (v : Int)
deriving DecidableEq

/-- A bound variable value: scalar or list (Python `isinstance(value, list)`). -/
inductive VarValue where
  | scalar (v : Scalar)
  | list (vs : List Scalar)
deriving DecidableEq

/-- The "all selected" sentinel `'$__all'`. -/
def allSentinel : Scalar := Scalar.s ("$__all".toList)

/-- `'$__all' in value and len(value) == 1`. -/
def listSentinel (vs : List Scalar) : Bool :=
  vs.contains allSentinel && vs.length == 1

/-- `f"'{str(v)}'" if isinstance(v, str) else str(v)` (lines 569 and 574). -/
def renderScalar : Scalar → List Char
  | .s w => "'".toList ++ w ++ "'".toList
  | .i n => intRepr n

/-- Line 569-570: quote each non-sentinel element and join with `", "`. -/
def joinListVals (vs : List Scalar) : List Char :=
  List.intercalate (", ".toList)
    ((vs.filter (fun v => !(v == allSentinel))).map renderScalar)

/-- Python `str(...)` of a whole bound value (used by the `'$Interval'`
rewrite); a list renders as its `repr`. -/
def pyStr : VarValue → List Char
  | .scalar (.s w) => w
  | .scalar (.i n) => intRepr n
  | .list vs =>
    "[".toList ++
    List.intercalate (", ".toList)
      (vs.map (fun v => match v with
        | .s w => "'".toList ++ w ++ "'".toList
        | .i n => intRepr n)) ++
    "]".toList

/-- Lookup in an association list (the variable binding table and, below, the
ordered replacement dict). -/
def aLookup (tvars : List (List Char × VarValue)) (k : List Char) : Option VarValue :=
  match tvars with
  | [] => none
  | p :: r => if p.1 = k then some p.2 else aLookup r k

/-! ## The ordered replacement dict (`replacements_to_make`) -/

/-- An insertion-ordered dict from key to `Option` replacement (`none` models
Python `None`, the "already consumed by a condition replacement" marker). -/
abbrev ReplDict := List (List Char × Option (List Char))

/-- Dict lookup: `some v` when the key is present with value `v`. -/
def dLookup (d : ReplDict) (k : List Char) : Option (Option (List Char)) :=
  match d with
  | [] => none
  | p :: r => if p.1 = k then some p.2 else dLookup r k

/-- Python `key in dict`. -/
def dHasKey (d : ReplDict) (k : List Char) : Bool :=
  (dLookup d k).isSome

/-- `dict[key] = value`: update in place if present, else append (Python dicts
preserve insertion order). -/
def dInsert (d : ReplDict) (k : List Char) (v : Option (List Char)) : ReplDict :=
  if dHasKey d k then d.map (fun p => if p.1 = k then (k, v) else p)
  else d ++ [(k, v)]

/-- The keys, in dict (insertion) order. -/
def dKeys (d : ReplDict) : List (List Char) :=
  d.map (fun p => p.1)

/-! ## The planning loop (lines 540-583) -/

/-- State threaded through the `for var_name in variable_matches` loop:
the replacement dict, the `processed_conditions` set, and the
`logger.warning` diagnostics emitted so far. -/
structure PlanState where
  repl : ReplDict
  conds : List (List Char)
  diags : List (List Char)
deriving DecidableEq

/-- Empty initial state. -/
def initPlan : PlanState := ⟨[], [], []⟩

/-- Line 582's warning for an unbound placeholder. -/
def unboundMsg (ph : List Char) : List Char :=
  "Variable ".toList ++ ph ++
  " found in query but not defined in dashboard templating. Placeholder will remain.".toList

/-- Line 565's warning when a `$__all` variable has no enclosing IN clause. -/
def allTrueMsg (ph : List Char) : List Char :=
  "Variable ".toList ++ ph ++
  " is '$__all' but not in a simple IN clause (or IN already handled). Planning to replace placeholder with boolean 'TRUE'.".toList

/-- The placeholder text `${vn}` built from a variable name. -/
def phOf (vn : List Char) : List Char :=
  "$\x7b".toList ++ vn ++ "\x7d".toList

/-- One iteration of the planning loop for variable name `vn`, inspecting the
pre-substitution query text `sql` (the code searches `interpolated_sql`, which
is not modified until the apply loop below). -/
def planVar (tvars : List (List Char × VarValue)) (sql : List Char)
    (st : PlanState) (vn : List Char) : PlanState :=
  let ph := phOf vn
  if dHasKey st.repl ph then st
  else
    match aLookup tvars vn with
    | some value =>
      match value with
      | .list vs =>
        if listSentinel vs then
          match searchInCond ph sql with
          | some ck =>
            if ck ∈ st.conds then
              if dHasKey st.repl ph then st
              else { st with repl := dInsert st.repl ph (some ("TRUE".toList)),
                             diags := st.diags ++ [allTrueMsg ph] }
            else
              { repl := dInsert (dInsert st.repl ck (some ("1=1".toList))) ph none,
                conds := st.conds ++ [ck],
                diags := st.diags }
          | none =>
            if dHasKey st.repl ph then st
            else { st with repl := dInsert st.repl ph (some ("TRUE".toList)),
                           diags := st.diags ++ [allTrueMsg ph] }
        else
          if dHasKey st.repl ph then st
          else { st with repl := dInsert st.repl ph (some (joinListVals vs)) }
      | .scalar sc =>
        if dHasKey st.repl ph then st
        else { st with repl := dInsert st.repl ph (some (renderScalar sc)) }
    | none =>
      { st with repl := dInsert st.repl ph (some ph),
                diags := st.diags ++ [unboundMsg ph] }

/-- The whole planning loop over the found variable names. -/
def buildPlan (tvars : List (List Char × VarValue)) (sql : List Char)
    (names : List (List Char)) : PlanState :=
  names.foldl (planVar tvars sql) initPlan

/-! ## The apply loop (lines 586-592) -/

/-- Stable insertion of a key into a list kept in descending length order:
the key goes after every key at least as long (so equal lengths keep their
relative order, matching Python's stable `sorted`). -/
def insertLen (k : List Char) : List (List Char) → List (List Char)
  | [] => [k]
  | x :: xs => if x.length < k.length then k :: x :: xs else x :: insertLen k xs

/-- `sorted(keys, key=len, reverse=True)` (stable). -/
def sortLenDesc (l : List (List Char)) : List (List Char) :=
  l.foldl (fun acc k => insertLen k acc) []

/-- One iteration of the apply loop: replace every occurrence of `k` by its
planned value, or skip when the value is the `None` consumed-marker. -/
def applyKey (repl : ReplDict) (s : List Char) (k : List Char) : List Char :=
  match dLookup repl k with
  | some (some v) => replaceAll k v s
  | _ => s

/-- `for key in sorted(replacements_to_make, key=len, reverse=True): ...`
applied sequentially against the evolving query text. -/
def applyReplacements (repl : ReplDict) (s : List Char) : List Char :=
  (sortLenDesc (dKeys repl)).foldl (applyKey repl) s

/-! ## The whole per-target substitution (lines 519-594) -/

/-- The time-filter phase (lines 521-529): the first `$__timeFilter(col)`
match, if any, has its whole matched text replaced (`str.replace`, i.e. every
occurrence of that exact text) by the boundary condition. -/
def timeFilterStep (time_from time_to : List Char) (now : Int) (raw : List Char) :
    List Char :=
  match searchTimeFilter raw with
  | some m =>
    let r := parse_grafana_time_range now time_from time_to m.2
    replaceAll m.1 r.1 raw
  | none => raw

/-- Resolution of one raw query: the time-filter rewrite, the `'$Interval'`
rewrite, the planning loop, the apply loop.  Returns the resolved text and the
planning-loop diagnostics. -/
def interpolate (tvars : List (List Char × VarValue))
    (time_from time_to : List Char) (now : Int) (raw : List Char) :
    List Char × List (List Char) :=
  let sql1 := timeFilterStep time_from time_to now raw
  let sql2 :=
    if containsSub ("'$Interval'".toList) sql1 then
      let iv := (aLookup tvars ("Interval".toList)).getD
        (VarValue.scalar (Scalar.s ("Monthly".toList)))
      replaceAll ("'$Interval'".toList) ("'".toList ++ pyStr iv ++ "'".toList) sql1
    else sql1
  let st := buildPlan tvars sql2 (findVars sql2)
  (applyReplacements st.repl sql2, st.diags)

/-! ## Lemmas: prefixes, containment, `replaceAll` -/

theorem dropPref_append (p r : List Char) : dropPref p (p ++ r) = some r := by
  induction p with
  | nil => rfl
  | cons a as ih => simp [dropPref, ih]

theorem eq_append_of_dropPref : ∀ {p s r : List Char}, dropPref p s = some r → s = p ++ r := by
  intro p
  induction p with
  | nil => intro s r h; simpa [dropPref] using h
  | cons a as ih =>
    intro s r h
    cases s with
    | nil => simp [dropPref] at h
    | cons b bs =>
      simp only [dropPref] at h
      split at h
      · rename_i hab
        simpa [← hab] using congrArg (a :: ·) (ih h)
      · exact absurd h (by simp)

theorem leadsWith_append (p r : List Char) : leadsWith p (p ++ r) = true := by
  simp [leadsWith, dropPref_append]

theorem leadsWith_mono {p q s : List Char} (h : leadsWith (p ++ q) s = true) :
    leadsWith p s = true := by
  unfold leadsWith at h
  cases hdp : dropPref (p ++ q) s with
  | none => rw [hdp] at h; simp at h
  | some r =>
    have hs := eq_append_of_dropPref hdp
    subst hs
    rw [List.append_assoc]
    exact leadsWith_append p (q ++ r)

theorem containsSub_cons (p : List Char) (c : Char) (rest : List Char) :
    containsSub p (c :: rest) = (leadsWith p (c :: rest) || containsSub p rest) := rfl

theorem replaceAllF_self (k : List Char) : ∀ (f : Nat) (s : List Char),
    replaceAllF k k f s = s := by
  intro f
  induction f with
  | zero => intro s; cases s <;> rfl
  | succ f ih =>
    intro s
    cases s with
    | nil => rfl
    | cons c cs =>
      simp only [replaceAllF]
      split
      · cases hdp : dropPref k (c :: cs) with
        | some r =>
          have hs := eq_append_of_dropPref hdp
          simp [hdp, ih r, ← hs]
        | none => simp [hdp, ih cs]
      · simp [ih cs]

/-- Replacing a key by itself is the identity (the code's treatment of an
unbound placeholder). -/
theorem replaceAll_self (k s : List Char) : replaceAll k k s = s :=
  replaceAllF_self k s.length s

/-! ## Lemmas: scanner misses on macro-free text -/

theorem timeFilterAt_none {s : List Char}
    (h : leadsWith ("$__timeFilter".toList) s = false) : timeFilterAt s = none := by
  unfold timeFilterAt
  cases hdp : dropPref ("$__timeFilter(".toList) s with
  | none => rfl
  | some r =>
    exfalso
    have h1 : leadsWith ("$__timeFilter(".toList) s = true := by
      unfold leadsWith; rw [hdp]; rfl
    have h2 : ("$__timeFilter(".toList) = ("$__timeFilter".toList) ++ ("(".toList) := by
      decide
    rw [h2] at h1
    rw [leadsWith_mono h1] at h
    exact Bool.noConfusion h

theorem searchTimeFilter_none : ∀ {s : List Char},
    containsSub ("$__timeFilter".toList) s = false → searchTimeFilter s = none := by
  intro s
  induction s with
  | nil => intro _; rfl
  | cons c cs ih =>
    intro h
    rw [containsSub_cons, Bool.or_eq_false_iff] at h
    simp [searchTimeFilter, timeFilterAt_none h.1, ih h.2]

theorem varAt_none {s : List Char}
    (h : leadsWith ("$\x7b".toList) s = false) : varAt s = none := by
  unfold varAt
  cases hdp : dropPref ("$\x7b".toList) s with
  | none => rfl
  | some r =>
    exfalso
    have h1 : leadsWith ("$\x7b".toList) s = true := by
      unfold leadsWith; rw [hdp]; rfl
    rw [h1] at h
    exact Bool.noConfusion h

theorem findVars_nil : ∀ {s : List Char},
    containsSub ("$\x7b".toList) s = false → findVars s = [] := by
  intro s
  induction s with
  | nil => intro _; rfl
  | cons c cs ih =>
    intro h
    rw [containsSub_cons, Bool.or_eq_false_iff] at h
    simp [findVars, varAt_none h.1, ih h.2]

/-! ## Lemmas: decimal digits round-trip, `relMatch` on well-formed specs -/

theorem takeWhile_append_all (p : Char → Bool) :
    ∀ (A B : List Char), (∀ a ∈ A, p a = true) →
      (A ++ B).takeWhile p = A ++ B.takeWhile p := by
  intro A
  induction A with
  | nil => intro B _; rfl
  | cons a as ih =>
    intro B h
    have ha : p a = true := h a (by simp)
    simp [List.takeWhile, ha, ih B (fun x hx => h x (by simp [hx]))]

theorem dropWhile_append_all (p : Char → Bool) :
    ∀ (A B : List Char), (∀ a ∈ A, p a = true) →
      (A ++ B).dropWhile p = B.dropWhile p := by
  intro A
  induction A with
  | nil => intro B _; rfl
  | cons a as ih =>
    intro B h
    have ha : p a = true := h a (by simp)
    simp [List.dropWhile, ha, ih B (fun x hx => h x (by simp [hx]))]

theorem charVal_digitChar : ∀ d : Nat, d < 10 → charVal (Nat.digitChar d) = d := by
  decide

theorem isDigit_digitChar : ∀ d : Nat, d < 10 → (Nat.digitChar d).isDigit = true := by
  decide

theorem foldl_digits : ∀ (L : List Nat), (∀ d ∈ L, d < 10) → ∀ (a : Nat),
    List.foldl (fun x c => 10 * x + charVal c) a ((L.reverse).map Nat.digitChar) =
      a * 10 ^ L.length + Nat.ofDigits 10 L := by
  intro L
  induction L with
  | nil => intro _ a; simp [Nat.ofDigits_nil]
  | cons x xs ih =>
    intro h a
    have hx : x < 10 := h x (by simp)
    rw [List.reverse_cons, List.map_append, List.foldl_append]
    rw [ih (fun d hd => h d (by simp [hd])) a]
    simp only [List.map_cons, List.map_nil, List.foldl_cons, List.foldl_nil]
    rw [charVal_digitChar x hx, Nat.ofDigits_cons, List.length_cons]
    ring

theorem natDigitsF_eq_digits : ∀ (f n : Nat), n ≤ f → natDigitsF f n = Nat.digits 10 n := by
  intro f
  induction f with
  | zero =>
    intro n hn
    have h0 : n = 0 := Nat.le_zero.mp hn
    rw [h0]
    simp [natDigitsF]
  | succ f ih =>
    intro n hn
    cases n with
    | zero => simp [natDigitsF]
    | succ m =>
      have hlt : (m + 1) / 10 < m + 1 := Nat.div_lt_self (Nat.succ_pos m) (by norm_num)
      show (m + 1) % 10 :: natDigitsF f ((m + 1) / 10) = _
      rw [ih ((m + 1) / 10) (by omega)]
      exact (Nat.digits_add_two_add_one (b := 8) (n := m)).symm

theorem natDigits_eq_digits (n : Nat) : natDigits n = Nat.digits 10 n :=
  natDigitsF_eq_digits n n le_rfl

theorem digitsVal_natRepr (n : Nat) : digitsVal (natRepr n) = n := by
  unfold natRepr digitsVal
  split
  · rename_i h; rw [h]; decide
  · rw [natDigits_eq_digits]
    have h := foldl_digits (Nat.digits 10 n)
      (fun d hd => Nat.digits_lt_base (by norm_num) hd) 0
    simpa [Nat.ofDigits_digits] using h

theorem natRepr_all_digits (n : Nat) : ∀ c ∈ natRepr n, c.isDigit = true := by
  unfold natRepr
  split
  · intro c hc
    simp only [String.toList] at hc
    simp at hc
    rw [hc]; decide
  · intro c hc
    rw [natDigits_eq_digits, List.mem_map] at hc
    obtain ⟨d, hd, hdc⟩ := hc
    rw [List.mem_reverse] at hd
    rw [← hdc]
    exact isDigit_digitChar d (Nat.digits_lt_base (by norm_num) hd)

theorem natRepr_ne_nil (n : Nat) : natRepr n ≠ [] := by
  unfold natRepr
  split
  · simp [String.toList]
  · rename_i h
    simp [natDigits_eq_digits, Nat.digits_ne_nil_iff_ne_zero.mpr h]

theorem relMatch_build (N : Nat) (u : Char) (rest : List Char)
    (hu : u.isDigit = false) :
    relMatch (("now-".toList) ++ natRepr N ++ u :: rest) =
      if u ∈ unitChars then some (N, u) else none := by
  unfold relMatch
  rw [List.append_assoc, dropPref_append]
  have ht : (natRepr N ++ u :: rest).takeWhile Char.isDigit = natRepr N := by
    rw [takeWhile_append_all _ _ _ (natRepr_all_digits N)]
    simp [List.takeWhile, hu]
  have hd : (natRepr N ++ u :: rest).dropWhile Char.isDigit = u :: rest := by
    rw [dropWhile_append_all _ _ _ (natRepr_all_digits N)]
    simp [List.dropWhile, hu]
  simp [ht, hd, natRepr_ne_nil, digitsVal_natRepr]

/-! ## Lemmas: the parse sections degrade instead of failing -/

theorem parseFromSpec_unit (now : Int) (N : Nat) (u : Char) (rest : List Char)
    (hu : u.isDigit = false) (huc : u ∈ unitChars) :
    parseFromSpec now (("now-".toList) ++ natRepr N ++ u :: rest) =
      match unitDelta u N with
      | some d =>
        if deltaTruthy d then (some (applyDelta now d), none)
        else (none, some ("Unsupported relative time unit: ".toList ++ [u]))
      | none => (none, some ("Unsupported relative time unit: ".toList ++ [u])) := by
  have hlw : leadsWith ("now-".toList) (("now-".toList) ++ natRepr N ++ u :: rest) = true := by
    rw [List.append_assoc]; exact leadsWith_append _ _
  unfold parseFromSpec
  rw [hlw]
  simp only [if_true]
  unfold relResolve
  rw [relMatch_build N u rest hu]
  simp [huc]

/-! ## Lemmas: the ordered replacement dict -/

theorem dLookup_map_update (k : List Char) (v : Option (List Char)) :
    ∀ d : ReplDict, dHasKey d k = true →
      dLookup (d.map (fun p => if p.1 = k then (k, v) else p)) k = some v := by
  intro d
  induction d with
  | nil => intro h; simp [dHasKey, dLookup] at h
  | cons p r ih =>
    intro h
    by_cases hp : p.1 = k
    · simp [dLookup, hp]
    · have hk : dHasKey r k = true := by
        unfold dHasKey at h ⊢
        unfold dLookup at h
        simpa [hp] using h
      simp [dLookup, hp, ih hk]

theorem dLookup_append_right (k : List Char) (v : Option (List Char)) :
    ∀ d : ReplDict, dHasKey d k = false → dLookup (d ++ [(k, v)]) k = some v := by
  intro d
  induction d with
  | nil => intro _; simp [dLookup]
  | cons p r ih =>
    intro h
    by_cases hp : p.1 = k
    · exfalso
      unfold dHasKey at h
      unfold dLookup at h
      simp [hp] at h
    · have hk : dHasKey r k = false := by
        unfold dHasKey at h ⊢
        unfold dLookup at h
        simp [hp] at h
        simp [h]
      simp [dLookup, hp, ih hk]

theorem dLookup_dInsert_self (d : ReplDict) (k : List Char) (v : Option (List Char)) :
    dLookup (dInsert d k v) k = some v := by
  unfold dInsert
  by_cases h : dHasKey d k = true
  · simp only [h, if_true]
    exact dLookup_map_update k v d h
  · simp only [h, if_false, Bool.false_eq_true]
    exact dLookup_append_right k v d (by simpa using h)

theorem dLookup_map_update_ne (k k' : List Char) (v : Option (List Char)) (h : k' ≠ k) :
    ∀ d : ReplDict,
      dLookup (d.map (fun p => if p.1 = k then (k, v) else p)) k' = dLookup d k' := by
  intro d
  induction d with
  | nil => rfl
  | cons p r ih =>
    by_cases hp : p.1 = k
    · simp [dLookup, hp, Ne.symm h, ih]
    · simp [dLookup, hp, ih]

theorem dLookup_append_ne (k k' : List Char) (v : Option (List Char)) (h : k' ≠ k) :
    ∀ d : ReplDict, dLookup (d ++ [(k, v)]) k' = dLookup d k' := by
  intro d
  induction d with
  | nil => simp [dLookup, Ne.symm h]
  | cons p r ih =>
    by_cases hp : p.1 = k'
    · simp [dLookup, hp]
    · simp [dLookup, hp, ih]

theorem dLookup_dInsert_ne (d : ReplDict) (k k' : List Char) (v : Option (List Char))
    (h : k' ≠ k) : dLookup (dInsert d k v) k' = dLookup d k' := by
  unfold dInsert
  by_cases hk : dHasKey d k = true
  · simp only [hk, if_true]
    exact dLookup_map_update_ne k k' v h d
  · simp only [hk, if_false, Bool.false_eq_true]
    exact dLookup_append_ne k k' v h d

theorem not_mem_dKeys (k : List Char) :
    ∀ d : ReplDict, dHasKey d k = false → k ∉ dKeys d := by
  intro d
  induction d with
  | nil => intro _; simp [dKeys]
  | cons p r ih =>
    intro h
    unfold dHasKey at h
    unfold dLookup at h
    by_cases hp : p.1 = k
    · simp [hp] at h
    · intro hmem
      simp only [dKeys, List.map_cons, List.mem_cons] at hmem
      rcases hmem with hmem | hmem
      · exact hp hmem.symm
      · refine ih ?_ hmem
        unfold dHasKey
        simpa [hp] using h

theorem dKeys_dInsert_hasKey (d : ReplDict) (k : List Char) (v : Option (List Char))
    (h : dHasKey d k = true) : dKeys (dInsert d k v) = dKeys d := by
  unfold dInsert
  simp only [h, if_true]
  unfold dKeys
  rw [List.map_map]
  apply List.map_congr_left
  intro p _
  by_cases hp : p.1 = k
  · simp [hp]
  · simp [hp]

theorem dKeys_dInsert_new (d : ReplDict) (k : List Char) (v : Option (List Char))
    (h : dHasKey d k = false) : dKeys (dInsert d k v) = dKeys d ++ [k] := by
  unfold dInsert
  simp [h, dKeys]

theorem nodup_dInsert (d : ReplDict) (k : List Char) (v : Option (List Char))
    (h : (dKeys d).Nodup) : (dKeys (dInsert d k v)).Nodup := by
  by_cases hk : dHasKey d k = true
  · rw [dKeys_dInsert_hasKey d k v hk]
    exact h
  · rw [dKeys_dInsert_new d k v (by simpa using hk)]
    rw [List.nodup_append]
    refine ⟨h, List.nodup_singleton k, ?_⟩
    intro a ha hb
    rw [List.mem_singleton] at hb
    subst hb
    exact not_mem_dKeys a d (by simpa using hk) ha

theorem nodup_planVar (tvars : List (List Char × VarValue)) (sql : List Char)
    (st : PlanState) (vn : List Char) (h : (dKeys st.repl).Nodup) :
    (dKeys (planVar tvars sql st vn).repl).Nodup := by
  unfold planVar
  dsimp only []
  repeat' split
  all_goals
    first
      | exact h
      | exact nodup_dInsert _ _ _ h
      | exact nodup_dInsert _ _ _ (nodup_dInsert _ _ _ h)

theorem nodup_buildPlan (tvars : List (List Char × VarValue)) (sql : List Char)
    (names : List (List Char)) : (dKeys (buildPlan tvars sql names).repl).Nodup := by
  have main : ∀ (ns : List (List Char)) (st : PlanState), (dKeys st.repl).Nodup →
      (dKeys (ns.foldl (planVar tvars sql) st).repl).Nodup := by
    intro ns
    induction ns with
    | nil => intro st h; exact h
    | cons n rest ih =>
      intro st h
      exact ih (planVar tvars sql st n) (nodup_planVar tvars sql st n h)
  exact main names initPlan (by simp [initPlan, dKeys])

/-! ## Lemmas: the stable descending-length sort -/

theorem mem_insertLen (y k : List Char) :
    ∀ l : List (List Char), y ∈ insertLen k l ↔ y = k ∨ y ∈ l := by
  intro l
  induction l with
  | nil => simp [insertLen]
  | cons x xs ih =>
    unfold insertLen
    split
    · simp
    · simp only [List.mem_cons, ih]
      tauto

theorem insertLen_perm (k : List Char) :
    ∀ l : List (List Char), (insertLen k l).Perm (k :: l) := by
  intro l
  induction l with
  | nil => exact List.Perm.refl _
  | cons x xs ih =>
    unfold insertLen
    split
    · exact List.Perm.refl _
    · exact (ih.cons x).trans (List.Perm.swap k x xs)

theorem sortLenDesc_perm (l : List (List Char)) : (sortLenDesc l).Perm l := by
  have main : ∀ (l acc : List (List Char)),
      (l.foldl (fun acc k => insertLen k acc) acc).Perm (acc ++ l) := by
    intro l
    induction l with
    | nil => intro acc; simp
    | cons k ks ih =>
      intro acc
      have h1 := ih (insertLen k acc)
      have h2 := (insertLen_perm k acc).append_right ks
      have h3 : ((k :: acc) ++ ks).Perm (acc ++ (k :: ks)) := by
        rw [List.cons_append]
        exact List.perm_middle.symm
      exact (h1.trans h2).trans h3
  simpa using main l []

theorem insertLen_sorted (k : List Char) :
    ∀ l : List (List Char),
      List.Sorted (fun a b : List Char => b.length ≤ a.length) l →
      List.Sorted (fun a b : List Char => b.length ≤ a.length) (insertLen k l) := by
  intro l
  induction l with
  | nil => intro _; simp [insertLen]
  | cons x xs ih =>
    intro h
    rw [List.sorted_cons] at h
    unfold insertLen
    split
    · rename_i hlt
      rw [List.sorted_cons]
      refine ⟨?_, by rw [List.sorted_cons]; exact h⟩
      intro y hy
      rcases List.mem_cons.mp hy with hy | hy
      · subst hy; omega
      · have := h.1 y hy
        omega
    · rename_i hge
      rw [List.sorted_cons]
      refine ⟨?_, ih h.2⟩
      intro y hy
      rcases (mem_insertLen y k xs).mp hy with hy | hy
      · subst hy; omega
      · exact h.1 y hy

theorem sortLenDesc_sorted (l : List (List Char)) :
    List.Sorted (fun a b : List Char => b.length ≤ a.length) (sortLenDesc l) := by
  have main : ∀ (l acc : List (List Char)),
      List.Sorted (fun a b : List Char => b.length ≤ a.length) acc →
      List.Sorted (fun a b : List Char => b.length ≤ a.length)
        (l.foldl (fun acc k => insertLen k acc) acc) := by
    intro l
    induction l with
    | nil => intro acc h; exact h
    | cons k ks ih => intro acc h; exact ih _ (insertLen_sorted k acc h)
  exact main l [] (by simp)

/-! ## Lemmas: shape of a matched IN-condition -/

theorem inCondAt_shape {ph s ck : List Char} (h : inCondAt ph s = some ck) :
    ∃ w s1 s2 s3 s4, w ≠ [] ∧
      ck = w ++ s1 ++ "IN".toList ++ s2 ++ "(".toList ++ s3 ++ ph ++ s4 ++ ")".toList := by
  unfold inCondAt at h
  dsimp only [] at h
  split at h
  · exact absurd h (by simp)
  · split at h
    · exact absurd h (by simp)
    · split at h
      · exact absurd h (by simp)
      · split at h
        · exact absurd h (by simp)
        · split at h
          · exact absurd h (by simp)
          · split at h
            · exact absurd h (by simp)
            · split at h
              · exact absurd h (by simp)
              · refine ⟨_, _, _, _, _, ?_, (Option.some.inj h).symm⟩
                assumption

theorem searchInCond_shape {ph ck : List Char} :
    ∀ {s : List Char}, searchInCond ph s = some ck →
      ∃ w s1 s2 s3 s4, w ≠ [] ∧
        ck = w ++ s1 ++ "IN".toList ++ s2 ++ "(".toList ++ s3 ++ ph ++ s4 ++ ")".toList := by
  intro s
  induction s with
  | nil => intro h; simp [searchInCond] at h
  | cons c cs ih =>
    intro h
    unfold searchInCond at h
    cases heq : inCondAt ph (c :: cs) with
    | some m =>
      rw [heq] at h
      have hm : m = ck := Option.some.inj h
      subst hm
      exact inCondAt_shape heq
    | none =>
      rw [heq] at h
      exact ih h

theorem searchInCond_longer {ph s ck : List Char} (h : searchInCond ph s = some ck) :
    ph.length < ck.length := by
  obtain ⟨w, s1, s2, s3, s4, hw, hck⟩ := searchInCond_shape h
  subst hck
  have hwl : 0 < w.length := List.length_pos.mpr hw
  simp [List.length_append]
  omega

theorem intercalate_single (sep x : List Char) : List.intercalate sep [x] = x := by
  simp [List.intercalate]

theorem intercalate_pair (sep x y : List Char) :
    List.intercalate sep [x, y] = x ++ sep ++ y := by
  simp [List.intercalate, List.intersperse]

/-! ## Lemmas: outcomes of one planning-loop iteration -/

theorem planVar_sentinel_found (tvars : List (List Char × VarValue)) (sql : List Char)
    (st : PlanState) (vn : List Char) (vs : List Scalar) (ck : List Char)
    (hnew : dHasKey st.repl (phOf vn) = false)
    (hb : aLookup tvars vn = some (VarValue.list vs))
    (hs : listSentinel vs = true)
    (hf : searchInCond (phOf vn) sql = some ck)
    (hc : ck ∉ st.conds) :
    planVar tvars sql st vn =
      { repl := dInsert (dInsert st.repl ck (some ("1=1".toList))) (phOf vn) none,
        conds := st.conds ++ [ck], diags := st.diags } := by
  simp [planVar, hnew, hb, hs, hf, hc]

theorem planVar_sentinel_notfound (tvars : List (List Char × VarValue)) (sql : List Char)
    (st : PlanState) (vn : List Char) (vs : List Scalar)
    (hnew : dHasKey st.repl (phOf vn) = false)
    (hb : aLookup tvars vn = some (VarValue.list vs))
    (hs : listSentinel vs = true)
    (hf : searchInCond (phOf vn) sql = none) :
    planVar tvars sql st vn =
      { st with repl := dInsert st.repl (phOf vn) (some ("TRUE".toList)),
                diags := st.diags ++ [allTrueMsg (phOf vn)] } := by
  simp [planVar, hnew, hb, hs, hf]

theorem planVar_scalar (tvars : List (List Char × VarValue)) (sql : List Char)
    (st : PlanState) (vn : List Char) (sc : Scalar)
    (hnew : dHasKey st.repl (phOf vn) = false)
    (hb : aLookup tvars vn = some (VarValue.scalar sc)) :
    planVar tvars sql st vn =
      { st with repl := dInsert st.repl (phOf vn) (some (renderScalar sc)) } := by
  simp [planVar, hnew, hb]

theorem planVar_multi (tvars : List (List Char × VarValue)) (sql : List Char)
    (st : PlanState) (vn : List Char) (vs : List Scalar)
    (hnew : dHasKey st.repl (phOf vn) = false)
    (hb : aLookup tvars vn = some (VarValue.list vs))
    (hs : listSentinel vs = false) :
    planVar tvars sql st vn =
      { st with repl := dInsert st.repl (phOf vn) (some (joinListVals vs)) } := by
  simp [planVar, hnew, hb, hs]

theorem planVar_unbound (tvars : List (List Char × VarValue)) (sql : List Char)
    (st : PlanState) (vn : List Char)
    (hnew : dHasKey st.repl (phOf vn) = false)
    (hun : aLookup tvars vn = none) :
    planVar tvars sql st vn =
      { st with repl := dInsert st.repl (phOf vn) (some (phOf vn)),
                diags := st.diags ++ [unboundMsg (phOf vn)] } := by
  simp [planVar, hnew, hun]

/-! ## Lemmas: `replaceAll` substitutes every scanned occurrence, and
`searchTimeFilter` returns the leftmost match -/

theorem containsSub_nil {old : List Char} (h : old ≠ []) : containsSub old [] = false := by
  cases old with
  | nil => exact absurd rfl h
  | cons o os => simp [containsSub, leadsWith, dropPref]

theorem intercalate_cons_ne (sep x : List Char) (xs : List (List Char)) (h : xs ≠ []) :
    List.intercalate sep (x :: xs) = x ++ sep ++ List.intercalate sep xs := by
  cases xs with
  | nil => exact absurd rfl h
  | cons y ys => simp [List.intercalate, List.intersperse]

/-- The factorization computed by the `str.replace` scan: the subject splits
into match-free segments separated by occurrences of `old`, and the output is
the same segments separated by `new` — every scanned occurrence is replaced,
uniformly, and the rest of the text is untouched. -/
theorem replaceAllF_parts (old new : List Char) (hold : old ≠ []) :
    ∀ (fuel : Nat) (s : List Char), s.length ≤ fuel →
      ∃ parts : List (List Char), parts ≠ []
        ∧ s = List.intercalate old parts
        ∧ replaceAllF old new fuel s = List.intercalate new parts
        ∧ ∀ p ∈ parts, containsSub old p = false := by
  intro fuel
  induction fuel with
  | zero =>
    intro s hs
    have hnil : s = [] := by
      cases s with
      | nil => rfl
      | cons a b => simp at hs
    subst hnil
    refine ⟨[[]], by simp, by simp [List.intercalate], by simp [replaceAllF, List.intercalate], ?_⟩
    intro p hp
    simp at hp
    subst hp
    exact containsSub_nil hold
  | succ f ih =>
    intro s hs
    cases s with
    | nil =>
      refine ⟨[[]], by simp, by simp [List.intercalate], by simp [replaceAllF, List.intercalate], ?_⟩
      intro p hp
      simp at hp
      subst hp
      exact containsSub_nil hold
    | cons c cs =>
      cases hdp : dropPref old (c :: cs) with
      | some r =>
        have hsplit := eq_append_of_dropPref hdp
        have holdlen : 1 ≤ old.length := by
          cases old with
          | nil => exact absurd rfl hold
          | cons _ _ => simp
        have hlens : (c :: cs).length = old.length + r.length := by
          rw [hsplit, List.length_append]
        have hrlen : r.length ≤ f := by
          simp only [List.length_cons] at hlens hs
          omega
        obtain ⟨parts, hne, hs1, hs2, hocc⟩ := ih r hrlen
        refine ⟨[] :: parts, by simp, ?_, ?_, ?_⟩
        · rw [intercalate_cons_ne _ _ _ hne, ← hs1]
          simpa using hsplit
        · have hstep : replaceAllF old new (Nat.succ f) (c :: cs) =
              new ++ replaceAllF old new f r := by
            simp [replaceAllF, hold, hdp]
          rw [hstep, hs2, intercalate_cons_ne _ _ _ hne]
          simp
        · intro p hp
          rcases List.mem_cons.mp hp with hp | hp
          · subst hp
            exact containsSub_nil hold
          · exact hocc p hp
      | none =>
        have hcs : cs.length ≤ f := by
          simp only [List.length_cons] at hs
          omega
        obtain ⟨parts, hne, hs1, hs2, hocc⟩ := ih cs hcs
        cases parts with
        | nil => exact absurd rfl hne
        | cons p ps =>
          have hpref : ∃ X, cs = p ++ X := by
            cases ps with
            | nil =>
              refine ⟨[], ?_⟩
              simpa [List.intercalate] using hs1
            | cons q qs =>
              refine ⟨old ++ List.intercalate old (q :: qs), ?_⟩
              rw [hs1, intercalate_cons_ne _ _ _ (by simp)]
              simp
          refine ⟨(c :: p) :: ps, by simp, ?_, ?_, ?_⟩
          · cases ps with
            | nil =>
              rw [intercalate_single] at hs1
              rw [intercalate_single]
              exact congrArg (List.cons c) hs1
            | cons q qs =>
              rw [intercalate_cons_ne old p (q :: qs) (by simp)] at hs1
              rw [intercalate_cons_ne old (c :: p) (q :: qs) (by simp)]
              rw [List.cons_append, List.cons_append]
              exact congrArg (List.cons c) hs1
          · have hstep : replaceAllF old new (Nat.succ f) (c :: cs) =
                c :: replaceAllF old new f cs := by
              simp [replaceAllF, hold, hdp]
            rw [hstep, hs2]
            cases ps with
            | nil =>
              rw [intercalate_single, intercalate_single]
            | cons q qs =>
              rw [intercalate_cons_ne new p (q :: qs) (by simp),
                  intercalate_cons_ne new (c :: p) (q :: qs) (by simp)]
              simp
          · intro x hx
            rcases List.mem_cons.mp hx with hx | hx
            · subst hx
              rw [containsSub_cons, Bool.or_eq_false_iff]
              refine ⟨?_, hocc p (by simp)⟩
              cases hlw : leadsWith old (c :: p) with
              | false => rfl
              | true =>
                exfalso
                obtain ⟨t, ht⟩ := Option.isSome_iff_exists.mp (by simpa [leadsWith] using hlw)
                have hcp := eq_append_of_dropPref ht
                obtain ⟨X, hX⟩ := hpref
                have : c :: cs = old ++ (t ++ X) := by
                  rw [hX, ← List.append_assoc, ← hcp]
                  rfl
                rw [this, dropPref_append] at hdp
                exact Option.noConfusion hdp
            · exact hocc x (List.mem_cons_of_mem p hx)

/-- `replaceAll` factorization at exactly the fuel the engine uses. -/
theorem replaceAll_parts (old new s : List Char) (hold : old ≠ []) :
    ∃ parts : List (List Char), parts ≠ []
      ∧ s = List.intercalate old parts
      ∧ replaceAll old new s = List.intercalate new parts
      ∧ ∀ p ∈ parts, containsSub old p = false :=
  replaceAllF_parts old new hold s.length s le_rfl

/-- A successful `timeFilterAt` match is a genuine occurrence at the current
position: the text decomposes as the whole matched call form followed by the
rest, and group 0 is `$__timeFilter(` ++ column ++ `)`. -/
theorem timeFilterAt_decomp {s : List Char} {m : List Char × List Char}
    (h : timeFilterAt s = some m) :
    ∃ rest, s = m.1 ++ rest
      ∧ m.1 = "$__timeFilter(".toList ++ m.2 ++ ")".toList := by
  unfold timeFilterAt at h
  cases hdp : dropPref ("$__timeFilter(".toList) s with
  | none => rw [hdp] at h; exact absurd h (by simp)
  | some r1 =>
    rw [hdp] at h
    dsimp only [] at h
    split at h
    · exact absurd h (by simp)
    · cases hdp2 : dropPref (")".toList) (r1.dropWhile isWordChar) with
      | none => rw [hdp2] at h; exact absurd h (by simp)
      | some r2 =>
        rw [hdp2] at h
        have hm := Option.some.inj h
        have hs1 := eq_append_of_dropPref hdp
        have hs2 := eq_append_of_dropPref hdp2
        have hr1 : r1 = r1.takeWhile isWordChar ++ (")".toList ++ r2) := by
          conv_lhs => rw [← List.takeWhile_append_dropWhile (p := isWordChar) (l := r1)]
          rw [hs2]
        refine ⟨r2, ?_, ?_⟩
        · rw [hs1, ← hm]
          dsimp only []
          conv_lhs => rw [hr1]
          simp [List.append_assoc]
        · rw [← hm]

/-- `re.search` semantics: the returned match is at the leftmost matching
position — the pattern fails at every earlier position. -/
theorem searchTimeFilter_leftmost : ∀ {s : List Char} {m : List Char × List Char},
    searchTimeFilter s = some m →
    ∃ k, timeFilterAt (s.drop k) = some m ∧ ∀ i, i < k → timeFilterAt (s.drop i) = none := by
  intro s
  induction s with
  | nil => intro m h; simp [searchTimeFilter] at h
  | cons c cs ih =>
    intro m h
    unfold searchTimeFilter at h
    cases heq : timeFilterAt (c :: cs) with
    | some m2 =>
      rw [heq] at h
      have hm : m2 = m := Option.some.inj h
      subst hm
      exact ⟨0, by simpa using heq, fun i hi => absurd hi (by omega)⟩
    | none =>
      rw [heq] at h
      obtain ⟨k, hk1, hk2⟩ := ih h
      refine ⟨k + 1, by simpa using hk1, ?_⟩
      intro i hi
      cases i with
      | zero => simpa using heq
      | succ j =>
        have hdrop : (c :: cs).drop (j + 1) = cs.drop j := by simp
        rw [hdrop]
        exact hk2 j (by omega)

/-! ## Claim theorems -/

/-- C1 counterexample: with two textually identical time-filter macros, the
second occurrence is NOT left untouched — `str.replace` substitutes the first
match's text everywhere, so both occurrences become the boundary condition and
no `$__timeFilter` text survives. -/
theorem c1_counterexample :
    (interpolate [] ("x".toList) ("y".toList) 0
        ("A $__timeFilter(t) B $__timeFilter(t) C".toList)).1 = "A 1=1 B 1=1 C".toList
    ∧ containsSub ("$__timeFilter".toList)
        ((interpolate [] ("x".toList) ("y".toList) 0
          ("A $__timeFilter(t) B $__timeFilter(t) C".toList)).1) = false :=
  ⟨by decide, by decide⟩

/-- C1 (amended): for every raw query in which the time-filter pattern
matches, the engine rewrites the query by `str.replace` of the first
textual match — the entire call form, found at the leftmost matching position
and a genuine occurrence there — with the boundary condition; that replacement
substitutes every scanned occurrence of the matched text uniformly (the
factorization into match-free segments), so a textually identical second
occurrence is also replaced, while a second occurrence with a different
column argument is left untouched. -/
theorem c1_first_match_text_replaced :
    (∀ (tf tt : List Char) (now : Int) (raw : List Char) (m : List Char × List Char),
        searchTimeFilter raw = some m →
        timeFilterStep tf tt now raw =
          replaceAll m.1 (parse_grafana_time_range now tf tt m.2).1 raw)
    ∧ (∀ (old new s : List Char), old ≠ [] →
        ∃ parts : List (List Char), parts ≠ []
          ∧ s = List.intercalate old parts
          ∧ replaceAll old new s = List.intercalate new parts
          ∧ ∀ p ∈ parts, containsSub old p = false)
    ∧ (∀ (raw : List Char) (m : List Char × List Char),
        searchTimeFilter raw = some m →
        ∃ k, timeFilterAt (raw.drop k) = some m
          ∧ ∀ i, i < k → timeFilterAt (raw.drop i) = none)
    ∧ (∀ (s : List Char) (m : List Char × List Char), timeFilterAt s = some m →
        ∃ rest, s = m.1 ++ rest
          ∧ m.1 = "$__timeFilter(".toList ++ m.2 ++ ")".toList)
    ∧ (interpolate [] ("x".toList) ("y".toList) 0
        ("A $__timeFilter(t) B $__timeFilter(u) C".toList)).1 =
      "A 1=1 B $__timeFilter(u) C".toList
    ∧ (interpolate [] ("x".toList) ("y".toList) 0
        ("A $__timeFilter(t) B $__timeFilter(t) C".toList)).1 = "A 1=1 B 1=1 C".toList := by
  refine ⟨?_, ?_, ?_, ?_, by decide, by decide⟩
  · intro tf tt now raw m h
    unfold timeFilterStep
    rw [h]
  · intro old new s hold
    exact replaceAll_parts old new s hold
  · intro raw m h
    exact searchTimeFilter_leftmost h
  · intro s m h
    exact timeFilterAt_decomp h

/-- C1 witness: the universal conjuncts at concrete inputs. -/
theorem c1_witness :
    timeFilterStep ("x".toList) ("y".toList) 0 ("A $__timeFilter(t) B".toList) =
      replaceAll ("$__timeFilter(t)".toList)
        (parse_grafana_time_range 0 ("x".toList) ("y".toList) ("t".toList)).1
        ("A $__timeFilter(t) B".toList)
    ∧ ∃ parts : List (List Char), parts ≠ []
        ∧ "abcabd".toList = List.intercalate ("ab".toList) parts
        ∧ replaceAll ("ab".toList) ("X".toList) ("abcabd".toList) =
            List.intercalate ("X".toList) parts
        ∧ ∀ p ∈ parts, containsSub ("ab".toList) p = false :=
  ⟨c1_first_match_text_replaced.1 ("x".toList) ("y".toList) 0 _
      (("$__timeFilter(t)".toList), ("t".toList)) (by decide),
   c1_first_match_text_replaced.2.1 ("ab".toList) ("X".toList) ("abcabd".toList)
     (by decide)⟩

/-- C2: the apply loop iterates the pending keys in descending length order
(stable sort of the dict's keys, a permutation with no duplicate keys, so each
distinct key is applied exactly once), a `None`-marked key substitutes
nothing, the IN-condition span is strictly longer than the placeholder it
contains, and a placeholder consumed by a condition replacement is marked
`None` so it is never independently substituted. -/
theorem c2_ordered_single_substitution :
    (∀ l : List (List Char),
      List.Sorted (fun a b : List Char => b.length ≤ a.length) (sortLenDesc l))
    ∧ (∀ l : List (List Char), (sortLenDesc l).Perm l)
    ∧ (∀ l : List (List Char), l.Nodup → (sortLenDesc l).Nodup)
    ∧ (∀ (tvars : List (List Char × VarValue)) (sql : List Char)
        (names : List (List Char)), (dKeys (buildPlan tvars sql names).repl).Nodup)
    ∧ (∀ (repl : ReplDict) (s k : List Char), dLookup repl k = some none →
        applyKey repl s k = s)
    ∧ (∀ ph s ck : List Char, searchInCond ph s = some ck → ph.length < ck.length)
    ∧ (∀ (tvars : List (List Char × VarValue)) (sql : List Char) (st : PlanState)
        (vn : List Char) (vs : List Scalar) (ck : List Char),
        aLookup tvars vn = some (VarValue.list vs) → listSentinel vs = true →
        dHasKey st.repl (phOf vn) = false →
        searchInCond (phOf vn) sql = some ck → ck ∉ st.conds →
        dLookup (planVar tvars sql st vn).repl (phOf vn) = some none
        ∧ (∀ s2, applyKey (planVar tvars sql st vn).repl s2 (phOf vn) = s2)) := by
  refine ⟨sortLenDesc_sorted, sortLenDesc_perm, ?_, nodup_buildPlan, ?_, ?_, ?_⟩
  · intro l hnd
    exact ((sortLenDesc_perm l).nodup_iff).mpr hnd
  · intro repl s k h
    unfold applyKey
    rw [h]
  · intro ph s ck h
    exact searchInCond_longer h
  · intro tvars sql st vn vs ck hb hs hnew hf hc
    rw [planVar_sentinel_found tvars sql st vn vs ck hnew hb hs hf hc]
    constructor
    · exact dLookup_dInsert_self _ _ _
    · intro s2
      unfold applyKey
      rw [dLookup_dInsert_self]

/-- C2 witness: the conjuncts with hypotheses at concrete inputs. -/
theorem c2_witness :
    applyKey [(("${r}".toList), none)] ("q".toList) ("${r}".toList) = "q".toList
    ∧ ("${r}".toList).length < ("x IN (${r})".toList).length
    ∧ (sortLenDesc [("${r}".toList), ("x IN (${r})".toList)]).Nodup :=
  ⟨c2_ordered_single_substitution.2.2.2.2.1 _ _ _ (by decide),
   c2_ordered_single_substitution.2.2.2.2.2.1 ("${r}".toList) ("x IN (${r})".toList)
     ("x IN (${r})".toList) (by decide),
   c2_ordered_single_substitution.2.2.1 [("${r}".toList), ("x IN (${r})".toList)]
     (by decide)⟩

/-- C3: a variable bound to exactly the single-element `$__all` sentinel list:
with an enclosing `<identifier> IN ( <placeholder> )` pattern in the query
text, the whole IN-condition is planned as `1=1` and the bare placeholder is
marked consumed (substituting nothing); with no enclosing pattern the bare
placeholder alone is planned as `TRUE`; end-to-end runs confirm both. -/
theorem c3_all_sentinel_substitution (tvars : List (List Char × VarValue))
    (sql : List Char) (st : PlanState) (vn : List Char) (vs : List Scalar)
    (hb : aLookup tvars vn = some (VarValue.list vs))
    (hs : listSentinel vs = true)
    (hnew : dHasKey st.repl (phOf vn) = false) :
    (∀ ck, searchInCond (phOf vn) sql = some ck → ck ∉ st.conds →
      dLookup (planVar tvars sql st vn).repl ck = some (some ("1=1".toList))
      ∧ dLookup (planVar tvars sql st vn).repl (phOf vn) = some none
      ∧ (∀ s, applyKey (planVar tvars sql st vn).repl s (phOf vn) = s))
    ∧ (searchInCond (phOf vn) sql = none →
      dLookup (planVar tvars sql st vn).repl (phOf vn) = some (some ("TRUE".toList)))
    ∧ (interpolate [(("region".toList), VarValue.list [allSentinel])] [] [] 0
        ("SELECT * FROM t WHERE x IN (${region})".toList)).1 =
        "SELECT * FROM t WHERE 1=1".toList
    ∧ (interpolate [(("region".toList), VarValue.list [allSentinel])] [] [] 0
        ("SELECT c, ${region} FROM t".toList)).1 =
        "SELECT c, TRUE FROM t".toList := by
  refine ⟨?_, ?_, by decide, by decide⟩
  · intro ck hf hc
    rw [planVar_sentinel_found tvars sql st vn vs ck hnew hb hs hf hc]
    have hlen := searchInCond_longer hf
    have hne : ck ≠ phOf vn := by
      intro he
      rw [he] at hlen
      omega
    refine ⟨?_, dLookup_dInsert_self _ _ _, ?_⟩
    · rw [dLookup_dInsert_ne _ _ _ _ hne]
      exact dLookup_dInsert_self _ _ _
    · intro s
      unfold applyKey
      rw [dLookup_dInsert_self]
  · intro hf
    rw [planVar_sentinel_notfound tvars sql st vn vs hnew hb hs hf]
    exact dLookup_dInsert_self _ _ _

/-- C3 witness: the sentinel cases at concrete inputs. -/
theorem c3_witness :
    dLookup (planVar [(("region".toList), VarValue.list [allSentinel])]
        ("SELECT * FROM t WHERE x IN (${region})".toList) initPlan ("region".toList)).repl
      ("x IN (${region})".toList) = some (some ("1=1".toList))
    ∧ dLookup (planVar [(("region".toList), VarValue.list [allSentinel])]
        ("SELECT c, ${region} FROM t".toList) initPlan ("region".toList)).repl
      (phOf ("region".toList)) = some (some ("TRUE".toList)) :=
  ⟨((c3_all_sentinel_substitution _ _ initPlan ("region".toList) [allSentinel]
      (by decide) (by decide) (by decide)).1
      ("x IN (${region})".toList) (by decide) (by decide)).1,
   (c3_all_sentinel_substitution _ _ initPlan ("region".toList) [allSentinel]
      (by decide) (by decide) (by decide)).2.1 (by decide)⟩

/-- C7 counterexample: `region` bound to `["a","b"]` inside `IN (${region})`
yields `IN ('a', 'b')` — with a space after the comma (`", ".join`), not the
claimed `IN ('a','b')`. -/
theorem c7_counterexample :
    (interpolate [(("region".toList),
        VarValue.list [Scalar.s ("a".toList), Scalar.s ("b".toList)])] [] [] 0
        ("SELECT * FROM t WHERE x IN (${region})".toList)).1 =
      "SELECT * FROM t WHERE x IN ('a', 'b')".toList
    ∧ containsSub ("IN ('a','b')".toList)
        ((interpolate [(("region".toList),
            VarValue.list [Scalar.s ("a".toList), Scalar.s ("b".toList)])] [] [] 0
            ("SELECT * FROM t WHERE x IN (${region})".toList)).1) = false :=
  ⟨by decide, by decide⟩

/-- C7 (amended: the multi-value separator is comma-space): a scalar string
value is planned as the single-quoted literal, a non-string scalar as its
decimal text, and a non-sentinel list as the `", "`-joined rendering of its
non-sentinel elements (strings quoted); `["a","b"]` inside `IN (${region})`
therefore yields `IN ('a', 'b')`. -/
theorem c7_value_rendering (tvars : List (List Char × VarValue)) (sql : List Char)
    (st : PlanState) (vn w : List Char) (n : Int) (vs : List Scalar)
    (hnew : dHasKey st.repl (phOf vn) = false) :
    (aLookup tvars vn = some (VarValue.scalar (Scalar.s w)) →
      dLookup (planVar tvars sql st vn).repl (phOf vn) =
        some (some ("'".toList ++ w ++ "'".toList)))
    ∧ (aLookup tvars vn = some (VarValue.scalar (Scalar.i n)) →
      dLookup (planVar tvars sql st vn).repl (phOf vn) = some (some (intRepr n)))
    ∧ (aLookup tvars vn = some (VarValue.list vs) → listSentinel vs = false →
      dLookup (planVar tvars sql st vn).repl (phOf vn) =
        some (some (List.intercalate (", ".toList)
          ((vs.filter (fun v => !(v == allSentinel))).map renderScalar))))
    ∧ (interpolate [(("region".toList), VarValue.scalar (Scalar.s ("us-east".toList)))]
        [] [] 0 ("WHERE r = ${region}".toList)).1 = "WHERE r = 'us-east'".toList := by
  refine ⟨?_, ?_, ?_, by decide⟩
  · intro hb
    rw [planVar_scalar tvars sql st vn _ hnew hb]
    exact dLookup_dInsert_self _ _ _
  · intro hb
    rw [planVar_scalar tvars sql st vn _ hnew hb]
    exact dLookup_dInsert_self _ _ _
  · intro hb hs
    rw [planVar_multi tvars sql st vn vs hnew hb hs]
    exact dLookup_dInsert_self _ _ _

/-- C7 witness: the rendering cases at concrete inputs. -/
theorem c7_witness :
    dLookup (planVar [(("v".toList), VarValue.scalar (Scalar.s ("x".toList)))] []
        initPlan ("v".toList)).repl (phOf ("v".toList)) =
      some (some ("'x'".toList))
    ∧ dLookup (planVar [(("v".toList),
        VarValue.list [Scalar.s ("a".toList), Scalar.s ("b".toList)])] []
        initPlan ("v".toList)).repl (phOf ("v".toList)) =
      some (some ("'a', 'b'".toList)) := by
  constructor
  · have h := (c7_value_rendering [(("v".toList), VarValue.scalar (Scalar.s ("x".toList)))]
      [] initPlan ("v".toList) ("x".toList) 0 [] (by decide)).1 (by decide)
    simpa using h
  · have h := (c7_value_rendering [(("v".toList),
      VarValue.list [Scalar.s ("a".toList), Scalar.s ("b".toList)])]
      [] initPlan ("v".toList) [] 0 [Scalar.s ("a".toList), Scalar.s ("b".toList)]
      (by decide)).2.2.1 (by decide) (by decide)
    simpa using h

/-- C8: a placeholder whose name has no binding is planned to replace itself
(so the output text is unchanged byte-for-byte — replacing a key by itself is
the identity), the query is not failed, and the unbound-variable diagnostic is
recorded; an end-to-end run confirms it. -/
theorem c8_unbound_placeholder (tvars : List (List Char × VarValue)) (sql : List Char)
    (st : PlanState) (vn : List Char)
    (hun : aLookup tvars vn = none)
    (hnew : dHasKey st.repl (phOf vn) = false) :
    dLookup (planVar tvars sql st vn).repl (phOf vn) = some (some (phOf vn))
    ∧ (planVar tvars sql st vn).diags = st.diags ++ [unboundMsg (phOf vn)]
    ∧ (∀ s, replaceAll (phOf vn) (phOf vn) s = s)
    ∧ interpolate [] [] [] 0 ("SELECT ${missing} FROM t".toList) =
        ("SELECT ${missing} FROM t".toList, [unboundMsg ("${missing}".toList)]) := by
  rw [planVar_unbound tvars sql st vn hnew hun]
  exact ⟨dLookup_dInsert_self _ _ _, rfl, fun s => replaceAll_self _ s, by decide⟩

/-- C8 witness: an unbound name at concrete inputs. -/
theorem c8_witness :
    dLookup (planVar [] ("SELECT ${missing} FROM t".toList) initPlan
        ("missing".toList)).repl (phOf ("missing".toList)) =
      some (some (phOf ("missing".toList))) :=
  (c8_unbound_placeholder [] ("SELECT ${missing} FROM t".toList) initPlan
    ("missing".toList) (by decide) (by decide)).1

/-- C4 (amended: `N ≥ 1`; the code's `if delta:` truthiness test rejects a
zero offset).  For every relative spec `now-<N>h` / `now-<N>d` / `now-<N>w`
(with arbitrary trailing text, hence in particular an optional `/<unit>`
rounding directive, which has no effect), resolution yields exactly the
reference instant minus `N` hours, days, or weeks; `now-<N>M` / `now-<N>y`
subtract a calendar-aware offset with last-valid-day clamping, so `now-1M` at
reference 2023-03-31 (day 19447 of the epoch) resolves to 2023-02-28 (day
19416). -/
theorem c4_relative_offsets (now : Int) (N : Nat) (hN : 1 ≤ N) (rest : List Char) :
    (parseFromSpec now (("now-".toList) ++ natRepr N ++ ('h') :: rest) =
      (some (now - (N : Int) * 3600), none))
    ∧ (parseFromSpec now (("now-".toList) ++ natRepr N ++ ('d') :: rest) =
      (some (now - (N : Int) * 86400), none))
    ∧ (parseFromSpec now (("now-".toList) ++ natRepr N ++ ('w') :: rest) =
      (some (now - (N : Int) * 604800), none))
    ∧ (parseFromSpec now (("now-".toList) ++ natRepr N ++ ('M') :: rest) =
      (some (subMonths now N), none))
    ∧ (parseFromSpec now (("now-".toList) ++ natRepr N ++ ('y') :: rest) =
      (some (subYears now N), none))
    ∧ parseFromSpec (19447 * 86400) ("now-1M".toList) = (some (19416 * 86400), none)
    ∧ civilFromDays 19447 = (2023, 3, 31)
    ∧ civilFromDays 19416 = (2023, 2, 28) := by
  refine ⟨?_, ?_, ?_, ?_, ?_, by decide, by decide, by decide⟩
  · rw [parseFromSpec_unit now N _ rest (by decide) (by decide)]
    have hne : N * 3600 ≠ 0 := by omega
    simp [unitDelta, deltaTruthy, applyDelta, hne]
  · rw [parseFromSpec_unit now N _ rest (by decide) (by decide)]
    have hne : N * 86400 ≠ 0 := by omega
    simp [unitDelta, deltaTruthy, applyDelta, hne]
  · rw [parseFromSpec_unit now N _ rest (by decide) (by decide)]
    have hne : N * 604800 ≠ 0 := by omega
    simp [unitDelta, deltaTruthy, applyDelta, hne]
  · rw [parseFromSpec_unit now N _ rest (by decide) (by decide)]
    have hne : N ≠ 0 := by omega
    simp [unitDelta, deltaTruthy, applyDelta, hne]
  · rw [parseFromSpec_unit now N _ rest (by decide) (by decide)]
    have hne : N ≠ 0 := by omega
    simp [unitDelta, deltaTruthy, applyDelta, hne]

/-- C4 witness: the amended statement at `now = 0`, `N = 6`, trailing `/d`. -/
theorem c4_witness :
    1 ≤ 6
    ∧ parseFromSpec 0 (("now-".toList) ++ natRepr 6 ++ ('h') :: ("/d".toList)) =
        (some (-21600), none) :=
  ⟨by decide, by
    have h := (c4_relative_offsets 0 6 (by decide) ("/d".toList)).1
    simpa using h⟩

/-- C4 counterexample: `now-0h` is a relative spec of the grammar (the regex
matches it), yet resolution does not yield `now - 0` hours — the falsy zero
`timedelta` sends the code down the error branch, leaving the bound absent. -/
theorem c4_counterexample :
    relMatch ("now-0h".toList) = some (0, ('h'))
    ∧ parseFromSpec 0 ("now-0h".toList) =
        (none, some ("Unsupported relative time unit: h".toList))
    ∧ (parseFromSpec 0 ("now-0h".toList)).1 ≠ some (0 - 0 * 3600) := by
  refine ⟨by decide, by decide, by decide⟩

/-- C10: for `now-<N>m` (lowercase `m`) the relative-grammar pattern matches
the unit, but no `delta` branch handles it: the bound is left absent with the
`Unsupported relative time unit` diagnostic — the spec is neither treated as
an absolute timestamp nor resolved as minutes. -/
theorem c10_minutes_unit_unsupported (now : Int) (N : Nat) :
    relMatch (("now-".toList) ++ natRepr N ++ ('m') :: []) = some (N, ('m'))
    ∧ parseFromSpec now (("now-".toList) ++ natRepr N ++ ('m') :: []) =
        (none, some ("Unsupported relative time unit: m".toList)) := by
  constructor
  · rw [relMatch_build N ('m') [] (by decide)]
    rw [if_pos (by decide)]
  · rw [parseFromSpec_unit now N ('m') [] (by decide) (by decide)]
    simp [unitDelta]

/-- C6: the boundary condition is one `>=` clause when only `from` resolved,
one `<=` clause when only `to` resolved, both joined by `" AND "` when both
resolved (timestamps formatted `YYYY-MM-DD HH:MM:SS`, witnessed by the epoch
formatting), and exactly `1=1` with a non-empty diagnostic when neither
resolved. -/
theorem c6_boundary_condition (a b : Int) (e : Option (List Char)) (col : List Char) :
    buildCondition (some a) none e col =
      (col ++ " >= '".toList ++ fmtTs a ++ "'".toList, e)
    ∧ buildCondition none (some b) e col =
      (col ++ " <= '".toList ++ fmtTs b ++ "'".toList, e)
    ∧ buildCondition (some a) (some b) e col =
      ((col ++ " >= '".toList ++ fmtTs a ++ "'".toList) ++ " AND ".toList ++
        (col ++ " <= '".toList ++ fmtTs b ++ "'".toList), e)
    ∧ buildCondition none none e col =
      ("1=1".toList, some (pyOrS e ("Failed to parse time range, using 1=1".toList)))
    ∧ 0 < (pyOrS e ("Failed to parse time range, using 1=1".toList)).length
    ∧ fmtTs 0 = "1970-01-01 00:00:00".toList := by
  refine ⟨?_, ?_, ?_, ?_, ?_, by decide⟩
  · simp [buildCondition, intercalate_single]
  · simp [buildCondition, intercalate_single]
  · simp [buildCondition, intercalate_pair]
  · simp [buildCondition]
  · unfold pyOrS
    cases e with
    | none => decide
    | some s =>
      by_cases hs : s = []
      · simp [hs]
      · simp [hs, List.length_pos]

/-- C9: substitution is the identity on macro-free input — a raw query with
no time-filter macro, no quoted interval token, and no `${...}` placeholder
is returned unchanged. -/
theorem c9_macro_free_identity (tvars : List (List Char × VarValue))
    (tf tt : List Char) (now : Int) (raw : List Char)
    (h1 : containsSub ("$__timeFilter".toList) raw = false)
    (h2 : containsSub ("'$Interval'".toList) raw = false)
    (h3 : containsSub ("$\x7b".toList) raw = false) :
    (interpolate tvars tf tt now raw).1 = raw := by
  unfold interpolate timeFilterStep
  rw [searchTimeFilter_none h1]
  simp only [h2, Bool.false_eq_true, if_false, findVars_nil h3]
  rfl

/-- C9 witness: a concrete macro-free query. -/
theorem c9_witness :
    (interpolate [] ("now-6h".toList) ("now".toList) 0
      ("SELECT usage_date, SUM(cost) FROM billing GROUP BY 1".toList)).1 =
      "SELECT usage_date, SUM(cost) FROM billing GROUP BY 1".toList :=
  c9_macro_free_identity [] ("now-6h".toList) ("now".toList) 0 _
    (by decide) (by decide) (by decide)

end GrafanaCost
